import Mathlib

/-!
Shallow embedding of the poker bots in `players/my_bot.py` and
`players/random_bot1.py`: the `HybridBot` decision policy and its adaptive
knobs, the draw detectors of `GameInfoAPI`, the `RandomBot` policy and the
`GameInfoAPI.get_position_info` helper.

Modelling conventions: Python ints are `Int`, Python floats are exact
rationals, the dict `player_bets` is an association list with the
`.get(key, 0)` convention, and the ambient random source is an explicit
`RandDraws` argument holding the values produced by the individual draws of one
decision.  The external engine's `HandEvaluator` is opaque to this code:
the postflop strategy receives `handRank = HAND_RANKINGS ∘ evaluate_best_hand`
as an arbitrary function parameter.
-/

/-- Card suits (the external engine's `Suit` enum). -/
inductive Suit where
  | spades
  | hearts
  | diamonds
  | clubs
deriving DecidableEq

/-- Card ranks (the external engine's `Rank` enum). -/
inductive Rank where
  | two
  | three
  | four
  | five
  | six
  | seven
  | eight
  | nine
  | ten
  | jack
  | queen
  | king
  | ace
deriving DecidableEq

/-- `Rank.value` in the engine: 2..14, ace high. -/
def Rank.val : Rank → ℤ
  | .two => 2
  | .three => 3
  | .four => 4
  | .five => 5
  | .six => 6
  | .seven => 7
  | .eight => 8
  | .nine => 9
  | .ten => 10
  | .jack => 11
  | .queen => 12
  | .king => 13
  | .ace => 14

/-- A playing card: rank and suit. -/
structure Card where
  rank : Rank
  suit : Suit
deriving DecidableEq

/-- The engine's `PlayerAction` enum. -/
inductive PlayerAction where
  | fold
  | check
  | call
  | raise
deriving DecidableEq

/-- The fields of the engine's `GameState` that the two bots and the
position helper read. -/
structure GameState where
  round_name : String
  pot : ℤ
  current_bet : ℤ
  big_blind : ℤ
  community_cards : List Card
  player_bets : List (String × ℤ)
  active_players : List String
  current_player : String

/-- Python `d.get(k, 0)` on the `player_bets` dict. -/
def dictGetD (m : List (String × ℤ)) (k : String) : ℤ :=
  ((m.find? fun p => p.1 == k).map Prod.snd).getD 0

/-- The mutable state of a `HybridBot` instance: its name plus the fields
assigned in `__init__` (`hands_played`, `hands_won`, `raise_frequency`,
`play_frequency`).  The two lookup tables are constants shared by all
instances and live in `premiumHands` / `goodSuitedConnectors` below. -/
structure HybridBotState where
  name : String
  hands_played : ℕ
  hands_won : ℕ
  raise_frequency : ℚ
  play_frequency : ℚ
deriving DecidableEq

/-- `HybridBot.premium_hands`. -/
def premiumHands : List (Rank × Rank) :=
  [(.ace, .ace), (.king, .king), (.queen, .queen),
   (.jack, .jack), (.ten, .ten),
   (.ace, .king), (.ace, .queen), (.king, .queen)]

/-- `HybridBot.good_suited_connectors`. -/
def goodSuitedConnectors : List (Rank × Rank) :=
  [(.king, .jack), (.queen, .jack), (.jack, .ten), (.ten, .nine), (.nine, .eight)]

/-- `HybridBot.__init__`: constructor defaults. -/
def initBot (name : String) : HybridBotState :=
  { name := name, hands_played := 0, hands_won := 0,
    raise_frequency := mkRat 1 2, play_frequency := mkRat 3 4 }

/-- The random draws a single decision can consume: `r1` and `r2` are the
successive values of `random.random()` (each in `[0,1)`), `u` the value of
`random.uniform(2.5, 4.0)`, `k` the seed selecting the result of
`random.randint`, and `choiceIdx` the index drawn by `random.choice`.
Draws are independent in Python, so quantifying over all `RandDraws` values
covers every possible interleaving of outcomes. -/
structure RandDraws where
  r1 : ℚ
  r2 : ℚ
  u : ℚ
  k : ℕ
  choiceIdx : ℕ

/-- The ranges the Python random primitives guarantee for their results. -/
def ValidRand (rand : RandDraws) : Prop :=
  0 ≤ rand.r1 ∧ rand.r1 < 1 ∧ 0 ≤ rand.r2 ∧ rand.r2 < 1 ∧
    mkRat 5 2 ≤ rand.u ∧ rand.u ≤ 4

/-- Kernel-computable embedding of the implicit Python int-to-float
widening that happens in mixed arithmetic such as `uniform(...) * big_blind`. -/
def intToRat (n : ℤ) : ℚ := mkRat n 1

/-- Python `int(q)`: truncation toward zero. -/
def pyInt (q : ℚ) : ℤ :=
  if 0 ≤ q then q.floor else -((-q).floor)

/-- Python `random.randint(lo, hi)` (both bounds inclusive); the draw is
selected by the seed `k`, and every value of `[lo, hi]` is realised by
some `k` whenever `lo ≤ hi`. -/
def pyRandint (lo hi : ℤ) (k : ℕ) : ℤ :=
  lo + (k % (hi - lo + 1).toNat : ℕ)

/-- `HybridBot._preflop_strategy`. -/
def preflopStrategy (bot : HybridBotState) (gs : GameState) (holeCards : List Card)
    (legal : List PlayerAction) (minBet maxBet : ℤ) (rand : RandDraws) :
    PlayerAction × ℤ :=
  match holeCards with
  | [c1, c2] =>
    if rand.r1 > bot.play_frequency then
      if PlayerAction.check ∈ legal then (.check, 0) else (.fold, 0)
    else
      if ¬(((c1.rank, c2.rank) ∈ premiumHands ∨ (c2.rank, c1.rank) ∈ premiumHands) ∨
            (c1.suit = c2.suit ∧
              ((c1.rank, c2.rank) ∈ goodSuitedConnectors ∨
                (c2.rank, c1.rank) ∈ goodSuitedConnectors)) ∨
            c1.rank = c2.rank) then
        if PlayerAction.call ∈ legal ∧ rand.r2 < mkRat 12 100 then (.call, 0)
        else if PlayerAction.check ∈ legal then (.check, 0)
        else (.fold, 0)
      else
        if PlayerAction.raise ∈ legal ∧ rand.r2 < bot.raise_frequency then
          (.raise, max (min (pyInt (rand.u * intToRat gs.big_blind)) maxBet) minBet)
        else if PlayerAction.call ∈ legal then (.call, 0)
        else (.check, 0)
  | _ => (.fold, 0)

/-- `GameInfoAPI.has_flush_draw`; the flush loop of `HybridBot._has_strong_draw`
is the identical code. -/
def hasFlushDraw (allCards : List Card) : Bool :=
  let suits := allCards.map Card.suit
  suits.any fun s => decide (4 ≤ suits.count s)

/-- Python `sorted(list(set(c.rank.value for c in all_cards)))`. -/
def sortedDedupRanks (allCards : List Card) : List ℤ :=
  List.insertionSort (· ≤ ·) ((allCards.map fun c => c.rank.val).dedup)

/-- The window loop `for i in range(len(ranks) - 3): ranks[i+3] - ranks[i] == 3`. -/
def straightWindow (ranks : List ℤ) : Bool :=
  (List.range (ranks.length - 3)).any fun i =>
    decide (ranks.getD (i + 3) 0 - ranks.getD i 0 = 3)

/-- The ace-low wheel check `rset.issuperset({14,2,3,4}) or rset.issuperset({2,3,4,5})`. -/
def wheelCheck (ranks : List ℤ) : Bool :=
  (([14, 2, 3, 4] : List ℤ).all fun r => decide (r ∈ ranks)) ||
    (([2, 3, 4, 5] : List ℤ).all fun r => decide (r ∈ ranks))

/-- `GameInfoAPI.has_open_ended_straight_draw`. -/
def has_open_ended_straight_draw (allCards : List Card) : Bool :=
  let ranks := sortedDedupRanks allCards
  if ranks.length < 4 then false
  else if straightWindow ranks then true
  else wheelCheck ranks

/-- `HybridBot._has_strong_draw`: flush part, then the straight-window loop
guarded by `len(ranks) >= 4`, then the wheel check. -/
def hasStrongDraw (allCards : List Card) : Bool :=
  if hasFlushDraw allCards then true
  else
    let ranks := sortedDedupRanks allCards
    if decide (4 ≤ ranks.length) && straightWindow ranks then true
    else wheelCheck ranks

/-- Modelled from the spec: `HandEvaluator.HAND_RANKINGS` lives in the
external engine (not in this repository); the spec fixes the total order
high-card < pair < two-pair < ... so only these two threshold values
matter to the postflop policy. -/
def HAND_RANKINGS_pair : ℕ := 1

/-- Modelled from the spec: see `HAND_RANKINGS_pair`. -/
def HAND_RANKINGS_two_pair : ℕ := 2

/-- `HybridBot._postflop_strategy`.  `handRank` is the opaque composite
`HAND_RANKINGS[evaluate_best_hand(all_cards)[0]]`.  Python's early
`return`s are flattened into an if-chain: the one-pair branch can fall
through to the draw branch, and the draw branch to the final check/fold. -/
def postflopStrategy (bot : HybridBotState) (handRank : List Card → ℕ) (gs : GameState)
    (holeCards : List Card) (legal : List PlayerAction) (minBet maxBet : ℤ)
    (rand : RandDraws) : PlayerAction × ℤ :=
  let allCards := holeCards ++ gs.community_cards
  let hr := handRank allCards
  if HAND_RANKINGS_two_pair ≤ hr then
    if PlayerAction.raise ∈ legal then (.raise, max (min gs.pot maxBet) minBet)
    else if PlayerAction.call ∈ legal then (.call, 0)
    else (.check, 0)
  else if HAND_RANKINGS_pair ≤ hr ∧ PlayerAction.call ∈ legal ∧
      gs.current_bet - dictGetD gs.player_bets bot.name ≤ Int.fdiv gs.pot 4 then
    (.call, 0)
  else if HAND_RANKINGS_pair ≤ hr ∧ PlayerAction.check ∈ legal then (.check, 0)
  else if hasStrongDraw allCards = true ∧ PlayerAction.raise ∈ legal ∧ rand.r1 < mkRat 4 10 then
    (.raise, max (min (Int.fdiv gs.pot 2) maxBet) minBet)
  else if hasStrongDraw allCards = true ∧ PlayerAction.call ∈ legal then (.call, 0)
  else if PlayerAction.check ∈ legal then (.check, 0)
  else (.fold, 0)

/-- `HybridBot.get_action`.  The method assigns to no field of `self`, so
its embedding returns the bot state unchanged alongside the decision. -/
def getAction (bot : HybridBotState) (handRank : List Card → ℕ) (gs : GameState)
    (holeCards : List Card) (legal : List PlayerAction) (minBet maxBet : ℤ)
    (rand : RandDraws) : HybridBotState × PlayerAction × ℤ :=
  if gs.round_name = "preflop" then
    (bot, preflopStrategy bot gs holeCards legal minBet maxBet rand)
  else
    (bot, postflopStrategy bot handRank gs holeCards legal minBet maxBet rand)

/-- `HybridBot.hand_complete`.  `winners = none` models a `hand_result`
dict without a `'winners'` key; Python's
`if 'winners' in hand_result and self.name in hand_result['winners']`
sends that case to the loss branch. -/
def handComplete (bot : HybridBotState) (winners : Option (List String)) :
    HybridBotState :=
  let played := { bot with hands_played := bot.hands_played + 1 }
  match winners with
  | some ws =>
    if bot.name ∈ ws then
      { played with
        hands_won := played.hands_won + 1
        raise_frequency := min (mkRat 8 10) (played.raise_frequency + mkRat 2 100)
        play_frequency := min (mkRat 9 10) (played.play_frequency + mkRat 1 100) }
    else
      { played with
        raise_frequency := max (mkRat 3 10) (played.raise_frequency - mkRat 1 100)
        play_frequency := max (mkRat 6 10) (played.play_frequency - mkRat 1 100) }
  | none =>
      { played with
        raise_frequency := max (mkRat 3 10) (played.raise_frequency - mkRat 1 100)
        play_frequency := max (mkRat 6 10) (played.play_frequency - mkRat 1 100) }

/-- `HybridBot.tournament_start` (the superclass call stores data outside
the fields modelled here). -/
def tournamentStart (bot : HybridBotState) (players : List String) : HybridBotState :=
  if players.length ≤ 4 then
    { bot with raise_frequency := mkRat 6 10, play_frequency := mkRat 85 100 }
  else if 8 ≤ players.length then
    { bot with raise_frequency := mkRat 45 100, play_frequency := mkRat 7 10 }
  else bot

/-- An engine callback that can touch the adaptive knobs. -/
inductive BotEvent where
  | handDone (winners : Option (List String))
  | tourneyStart (players : List String)

/-- Dispatch one engine callback. -/
def applyEvent (bot : HybridBotState) (e : BotEvent) : HybridBotState :=
  match e with
  | .handDone w => handComplete bot w
  | .tourneyStart ps => tournamentStart bot ps

/-- A finite sequence of engine callbacks. -/
def applyEvents (bot : HybridBotState) (evs : List BotEvent) : HybridBotState :=
  evs.foldl applyEvent bot

/-- The `max_raise_amount` computation of `RandomBot.get_action`:
`min(int(pot * 1.5), max_bet)`, bumped up to `min_bet` when below it. -/
def randomBotRaiseCap (gs : GameState) (minBet maxBet : ℤ) : ℤ :=
  let maxRaiseAmount := min (pyInt (intToRat gs.pot * mkRat 3 2)) maxBet
  if maxRaiseAmount < minBet then minBet else maxRaiseAmount

/-- `RandomBot.get_action`.  `random.choice(legal_actions)` is modelled as
indexing by `choiceIdx` modulo the length (Python raises on an empty
sequence; the claims only concern non-empty legal sets). -/
def randomBotGetAction (gs : GameState) (_holeCards : List Card)
    (legal : List PlayerAction) (minBet maxBet : ℤ) (rand : RandDraws) :
    PlayerAction × ℤ :=
  let action := legal.getD (rand.choiceIdx % legal.length) .fold
  if action = PlayerAction.raise then
    (action, pyRandint minBet (randomBotRaiseCap gs minBet maxBet) rand.k)
  else (action, 0)

/-- The dict returned by `GameInfoAPI.get_position_info`. -/
structure PositionInfo where
  position : ℤ
  players_after : ℤ
  is_last : Bool
deriving DecidableEq

/-- `GameInfoAPI.get_position_info`: the two `list.index` calls either both
succeed or the `ValueError` handler returns the fallback dict.  Python `%`
with a positive modulus agrees with `Int.emod`. -/
def get_position_info (gs : GameState) (playerName : String) : PositionInfo :=
  match gs.active_players.findIdx? (· == playerName),
      gs.active_players.findIdx? (· == gs.current_player) with
  | some position, some currentPos =>
    let n : ℤ := gs.active_players.length
    let relativePos := ((position : ℤ) - (currentPos : ℤ)) % n
    { position := relativePos, players_after := n - relativePos - 1,
      is_last := decide (relativePos = n - 1) }
  | _, _ => { position := -1, players_after := 0, is_last := false }

/-- The straight-draw condition exactly as the claim words it: the sorted
list of distinct rank values contains a 4-element window whose maximum
minus minimum equals 3, or the rank set is a superset of `{14,2,3,4}` or
of `{2,3,4,5}`. -/
def claimStraightDraw (allCards : List Card) : Prop :=
  (∃ i, i + 3 < (sortedDedupRanks allCards).length ∧
      (sortedDedupRanks allCards).getD (i + 3) 0 - (sortedDedupRanks allCards).getD i 0 = 3) ∨
    (∀ r ∈ ([14, 2, 3, 4] : List ℤ), r ∈ sortedDedupRanks allCards) ∨
    (∀ r ∈ ([2, 3, 4, 5] : List ℤ), r ∈ sortedDedupRanks allCards)

/-- Both adaptive knobs inside their clamp ranges. -/
def knobsInBounds (bot : HybridBotState) : Prop :=
  mkRat 3 10 ≤ bot.raise_frequency ∧ bot.raise_frequency ≤ mkRat 8 10 ∧
    mkRat 6 10 ≤ bot.play_frequency ∧ bot.play_frequency ≤ mkRat 9 10

/-- The win condition of `hand_complete`: a `'winners'` key is present and
the bot's name is among the winners. -/
def isWin (bot : HybridBotState) (winners : Option (List String)) : Prop :=
  match winners with
  | some ws => bot.name ∈ ws
  | none => False

/-- A concrete preflop game state used for witnesses. -/
def gsPre : GameState :=
  { round_name := "preflop", pot := 30, current_bet := 10, big_blind := 10,
    community_cards := [], player_bets := [], active_players := ["hybrid", "villain"],
    current_player := "hybrid" }

/-- A concrete flop game state (no one has bet this round) used for
witnesses and counterexamples. -/
def gsFlop : GameState :=
  { round_name := "flop", pot := 100, current_bet := 0, big_blind := 10,
    community_cards := [⟨.nine, .spades⟩, ⟨.jack, .hearts⟩, ⟨.king, .diamonds⟩],
    player_bets := [], active_players := ["hybrid", "villain"],
    current_player := "hybrid" }

/-- A concrete valid random outcome: both `random.random()` draws 0.5. -/
def randC : RandDraws := { r1 := mkRat 1 2, r2 := mkRat 1 2, u := mkRat 3 1, k := 0, choiceIdx := 0 }

/-- A concrete valid random outcome whose second draw is 0. -/
def randLow : RandDraws := { r1 := mkRat 1 2, r2 := 0, u := mkRat 3 1, k := 0, choiceIdx := 0 }

/-- The (valid) random outcome where both `random.random()` draws are
exactly 0.0. -/
def randZero : RandDraws := { r1 := 0, r2 := 0, u := mkRat 3 1, k := 0, choiceIdx := 0 }

example : (preflopStrategy (initBot "h") gsPre [⟨.ace, .spades⟩, ⟨.ace, .diamonds⟩]
    [.fold, .call, .raise] 20 500 randLow).1 = .raise := by decide

example : (preflopStrategy (initBot "h") gsPre [⟨.ace, .spades⟩, ⟨.ace, .diamonds⟩]
    [.fold] 20 500 randC) = (.check, 0) := by decide

example : hasStrongDraw [⟨.two, .clubs⟩, ⟨.seven, .diamonds⟩, ⟨.nine, .spades⟩,
    ⟨.jack, .hearts⟩, ⟨.king, .diamonds⟩] = false := by decide

example : has_open_ended_straight_draw [⟨.ace, .spades⟩, ⟨.two, .hearts⟩,
    ⟨.three, .diamonds⟩, ⟨.four, .clubs⟩] = true := by decide

example : get_position_info gsPre "villain" = ⟨1, 0, true⟩ := by decide

/-- A `HybridBot` whose play frequency has been forced to 1.0. -/
def botPF1 : HybridBotState := { initBot "h" with play_frequency := 1 }

/-- A `HybridBot` whose play frequency has been forced to 0. -/
def botPF0 : HybridBotState := { initBot "h" with play_frequency := 0 }

theorem findIdx_eq_none_of_not_mem (l : List String) (a : String) (h : a ∉ l) :
    l.findIdx? (· == a) = none := by
  rw [List.findIdx?_eq_none_iff]
  intro x hx
  exact beq_eq_false_iff_ne.mpr fun e => h (e ▸ hx)

theorem mem_of_findIdx_eq_some {l : List String} {a : String} {i : ℕ}
    (h : l.findIdx? (· == a) = some i) : a ∈ l := by
  by_contra hmem
  rw [findIdx_eq_none_of_not_mem l a hmem] at h
  exact Option.noConfusion h

/-- C9: `HybridBot.get_action` leaves the bot's own state unchanged:
`raise_frequency`, `play_frequency`, `hands_played` and `hands_won` have the
same values after the call as before, on every preflop or postflop path. -/
theorem C9_get_action_frame (bot : HybridBotState) (handRank : List Card → ℕ)
    (gs : GameState) (holeCards : List Card) (legal : List PlayerAction)
    (minBet maxBet : ℤ) (rand : RandDraws) :
    (getAction bot handRank gs holeCards legal minBet maxBet rand).1.raise_frequency =
        bot.raise_frequency ∧
      (getAction bot handRank gs holeCards legal minBet maxBet rand).1.play_frequency =
        bot.play_frequency ∧
      (getAction bot handRank gs holeCards legal minBet maxBet rand).1.hands_played =
        bot.hands_played ∧
      (getAction bot handRank gs holeCards legal minBet maxBet rand).1.hands_won =
        bot.hands_won := by
  unfold getAction
  split <;> exact ⟨rfl, rfl, rfl, rfl⟩

/-- C8: a preflop `get_action` call with a hole-card list whose length is not
2 returns `(fold, 0)`, for every game state, legal-action list, bet bounds
and random outcome. -/
theorem C8_malformed_hole_fold (bot : HybridBotState) (handRank : List Card → ℕ)
    (gs : GameState) (holeCards : List Card) (legal : List PlayerAction)
    (minBet maxBet : ℤ) (rand : RandDraws)
    (hround : gs.round_name = "preflop") (hlen : holeCards.length ≠ 2) :
    (getAction bot handRank gs holeCards legal minBet maxBet rand).2 =
      (PlayerAction.fold, 0) := by
  unfold getAction
  rw [if_pos hround]
  rcases holeCards with _ | ⟨c1, _ | ⟨c2, _ | ⟨c3, t⟩⟩⟩
  · rfl
  · rfl
  · exact absurd rfl hlen
  · rfl

theorem C8_malformed_hole_fold_witness :
    gsPre.round_name = "preflop" ∧ ([] : List Card).length ≠ 2 ∧
      (getAction (initBot "h") (fun _ => 0) gsPre [] [PlayerAction.fold] 0 0 randC).2 =
        (PlayerAction.fold, 0) :=
  ⟨rfl, by decide,
    C8_malformed_hole_fold (initBot "h") (fun _ => 0) gsPre [] [PlayerAction.fold] 0 0 randC
      rfl (by decide)⟩

/-- C6: with `play_frequency` forced to 1.0, a preflop decision holding
Ace of spades and Ace of diamonds against legal actions fold/call/raise with
`min_bet = 20`, `max_bet = 500`, `big_blind = 10` returns raise or call and
never fold, for every valid outcome of the random draws. -/
theorem C6_premium_never_fold (bot : HybridBotState) (handRank : List Card → ℕ)
    (gs : GameState) (rand : RandDraws) (hv : ValidRand rand)
    (hpf : bot.play_frequency = 1) (hround : gs.round_name = "preflop")
    (_hbb : gs.big_blind = 10) :
    ((getAction bot handRank gs [⟨.ace, .spades⟩, ⟨.ace, .diamonds⟩]
        [PlayerAction.fold, PlayerAction.call, PlayerAction.raise] 20 500 rand).2.1 =
          PlayerAction.raise ∨
      (getAction bot handRank gs [⟨.ace, .spades⟩, ⟨.ace, .diamonds⟩]
        [PlayerAction.fold, PlayerAction.call, PlayerAction.raise] 20 500 rand).2.1 =
          PlayerAction.call) ∧
      (getAction bot handRank gs [⟨.ace, .spades⟩, ⟨.ace, .diamonds⟩]
        [PlayerAction.fold, PlayerAction.call, PlayerAction.raise] 20 500 rand).2.1 ≠
        PlayerAction.fold := by
  obtain ⟨_, h1, _⟩ := hv
  have hgate : ¬ (rand.r1 > bot.play_frequency) := by
    rw [hpf]; exact not_lt.mpr h1.le
  unfold getAction preflopStrategy
  rw [if_pos hround]
  dsimp only
  rw [if_neg hgate]
  rw [if_neg (not_not_intro (by decide :
    (((⟨.ace, .spades⟩ : Card).rank, (⟨.ace, .diamonds⟩ : Card).rank) ∈ premiumHands ∨
        ((⟨.ace, .diamonds⟩ : Card).rank, (⟨.ace, .spades⟩ : Card).rank) ∈ premiumHands) ∨
      ((⟨.ace, .spades⟩ : Card).suit = (⟨.ace, .diamonds⟩ : Card).suit ∧
        (((⟨.ace, .spades⟩ : Card).rank, (⟨.ace, .diamonds⟩ : Card).rank) ∈
            goodSuitedConnectors ∨
          ((⟨.ace, .diamonds⟩ : Card).rank, (⟨.ace, .spades⟩ : Card).rank) ∈
            goodSuitedConnectors)) ∨
      (⟨.ace, .spades⟩ : Card).rank = (⟨.ace, .diamonds⟩ : Card).rank))]
  split_ifs with hraise hcall
  · exact ⟨Or.inl rfl, fun h => nomatch h⟩
  · exact ⟨Or.inr rfl, fun h => nomatch h⟩
  · exact absurd (by decide : PlayerAction.call ∈
      [PlayerAction.fold, PlayerAction.call, PlayerAction.raise]) hcall

theorem C6_premium_never_fold_witness :
    ValidRand randC ∧ botPF1.play_frequency = 1 ∧ gsPre.round_name = "preflop" ∧
      gsPre.big_blind = 10 ∧
      (((getAction botPF1 (fun _ => 0) gsPre [⟨.ace, .spades⟩, ⟨.ace, .diamonds⟩]
          [PlayerAction.fold, PlayerAction.call, PlayerAction.raise] 20 500 randC).2.1 =
            PlayerAction.raise ∨
        (getAction botPF1 (fun _ => 0) gsPre [⟨.ace, .spades⟩, ⟨.ace, .diamonds⟩]
          [PlayerAction.fold, PlayerAction.call, PlayerAction.raise] 20 500 randC).2.1 =
            PlayerAction.call) ∧
        (getAction botPF1 (fun _ => 0) gsPre [⟨.ace, .spades⟩, ⟨.ace, .diamonds⟩]
          [PlayerAction.fold, PlayerAction.call, PlayerAction.raise] 20 500 randC).2.1 ≠
          PlayerAction.fold) :=
  ⟨by unfold ValidRand; decide, rfl, rfl, rfl,
    C6_premium_never_fold botPF1 (fun _ => 0) gsPre randC (by unfold ValidRand; decide)
      rfl rfl rfl⟩

/-- C7 (amended): with `play_frequency` forced to 0, a preflop decision with
hole cards 7 of clubs and 2 of diamonds returns check if check is legal and
fold (with amount 0) otherwise, for every random outcome whose first
`random.random()` draw is strictly positive.  When that first draw is exactly
0.0, the gate `random.random() > 0` does not fire and the weak-hand branch
may call instead (see the counterexample). -/
theorem C7_weak_gate_folds (bot : HybridBotState) (handRank : List Card → ℕ)
    (gs : GameState) (legal : List PlayerAction) (minBet maxBet : ℤ)
    (rand : RandDraws) (hpf : bot.play_frequency = 0)
    (hround : gs.round_name = "preflop") (hr1 : 0 < rand.r1) :
    (getAction bot handRank gs [⟨.seven, .clubs⟩, ⟨.two, .diamonds⟩]
        legal minBet maxBet rand).2 =
      (if PlayerAction.check ∈ legal then (PlayerAction.check, 0)
        else (PlayerAction.fold, 0)) := by
  have hgate : rand.r1 > bot.play_frequency := by rw [hpf]; exact hr1
  unfold getAction preflopStrategy
  rw [if_pos hround]
  dsimp only
  rw [if_pos hgate]

/-- C7 counterexample: with `play_frequency = 0` and the possible random
outcome where both `random.random()` draws are exactly 0.0, the bot calls
instead of folding (check is not legal), so the scenario is not
deterministic over all draw outcomes. -/
theorem C7_counterexample :
    (getAction botPF0 (fun _ => 0) gsPre [⟨.seven, .clubs⟩, ⟨.two, .diamonds⟩]
        [PlayerAction.fold, PlayerAction.call, PlayerAction.raise] 20 500 randZero).2 =
      (PlayerAction.call, 0) ∧
      PlayerAction.call ≠ PlayerAction.check ∧ PlayerAction.call ≠ PlayerAction.fold := by
  decide

theorem C7_weak_gate_folds_witness :
    botPF0.play_frequency = 0 ∧ gsPre.round_name = "preflop" ∧ (0 : ℚ) < randC.r1 ∧
      (getAction botPF0 (fun _ => 0) gsPre [⟨.seven, .clubs⟩, ⟨.two, .diamonds⟩]
          [PlayerAction.fold, PlayerAction.call, PlayerAction.raise] 20 500 randC).2 =
        (if PlayerAction.check ∈
            [PlayerAction.fold, PlayerAction.call, PlayerAction.raise] then
          (PlayerAction.check, 0) else (PlayerAction.fold, 0)) :=
  ⟨rfl, rfl, by decide,
    C7_weak_gate_folds botPF0 (fun _ => 0) gsPre
      [PlayerAction.fold, PlayerAction.call, PlayerAction.raise] 20 500 randC
      rfl rfl (by decide)⟩

/-- C10: `GameInfoAPI.get_position_info` never lets the `ValueError` of
`list.index` escape: whenever the player or the current-to-act player is not
in the active-player list it returns exactly
`{'position': -1, 'players_after': 0, 'is_last': False}`. -/
theorem C10_position_fallback (gs : GameState) (playerName : String)
    (h : playerName ∉ gs.active_players ∨ gs.current_player ∉ gs.active_players) :
    get_position_info gs playerName = ⟨-1, 0, false⟩ := by
  unfold get_position_info
  rcases h with h | h
  · rw [findIdx_eq_none_of_not_mem _ _ h]
  · cases hf : gs.active_players.findIdx? (· == playerName) with
    | none => rfl
    | some i => rw [findIdx_eq_none_of_not_mem _ _ h]

theorem C10_position_fallback_witness :
    ("ghost" ∉ gsPre.active_players ∨ gsPre.current_player ∉ gsPre.active_players) ∧
      get_position_info gsPre "ghost" = ⟨-1, 0, false⟩ :=
  ⟨Or.inl (by decide), C10_position_fallback gsPre "ghost" (Or.inl (by decide))⟩

/-- The amount contract of the engine boundary: amount 0 for
fold/check/call and an amount within `[min_bet, max_bet]` for raise. -/
def amountContractOk (minBet maxBet : ℤ) (r : PlayerAction × ℤ) : Prop :=
  ((r.1 = PlayerAction.fold ∨ r.1 = PlayerAction.check ∨ r.1 = PlayerAction.call) →
      r.2 = 0) ∧
    (r.1 = PlayerAction.raise → minBet ≤ r.2 ∧ r.2 ≤ maxBet)

theorem clampOk (x lo hi : ℤ) (h : lo ≤ hi) :
    lo ≤ max (min x hi) lo ∧ max (min x hi) lo ≤ hi :=
  ⟨le_max_right _ _, max_le (min_le_right x hi) h⟩

theorem randintOk (lo hi : ℤ) (k : ℕ) (h : lo ≤ hi) :
    lo ≤ pyRandint lo hi k ∧ pyRandint lo hi k ≤ hi := by
  unfold pyRandint
  have hn : ((hi - lo + 1).toNat : ℤ) = hi - lo + 1 := Int.toNat_of_nonneg (by omega)
  have hpos : 0 < (hi - lo + 1).toNat := by omega
  have hmod : (k % (hi - lo + 1).toNat) < (hi - lo + 1).toNat := Nat.mod_lt _ hpos
  have h0 : (0 : ℤ) ≤ (k % (hi - lo + 1).toNat : ℕ) := Int.ofNat_nonneg _
  have hlt : ((k % (hi - lo + 1).toNat : ℕ) : ℤ) < ((hi - lo + 1).toNat : ℤ) := by
    exact_mod_cast hmod
  omega

theorem preflop_amount (bot : HybridBotState) (gs : GameState) (holeCards : List Card)
    (legal : List PlayerAction) (minBet maxBet : ℤ) (rand : RandDraws)
    (hmm : minBet ≤ maxBet) :
    amountContractOk minBet maxBet
      (preflopStrategy bot gs holeCards legal minBet maxBet rand) := by
  unfold preflopStrategy amountContractOk
  rcases holeCards with _ | ⟨c1, _ | ⟨c2, _ | ⟨c3, t⟩⟩⟩ <;> dsimp only
  · exact ⟨fun _ => rfl, fun hr => nomatch hr⟩
  · exact ⟨fun _ => rfl, fun hr => nomatch hr⟩
  · split_ifs <;> refine ⟨fun hz => ?_, fun hr => ?_⟩ <;>
      first
        | rfl
        | exact clampOk _ _ _ hmm
        | simp at hr
        | (rcases hz with h | h | h <;> simp at h)
  · exact ⟨fun _ => rfl, fun hr => nomatch hr⟩

theorem postflop_amount (bot : HybridBotState) (handRank : List Card → ℕ)
    (gs : GameState) (holeCards : List Card) (legal : List PlayerAction)
    (minBet maxBet : ℤ) (rand : RandDraws) (hmm : minBet ≤ maxBet) :
    amountContractOk minBet maxBet
      (postflopStrategy bot handRank gs holeCards legal minBet maxBet rand) := by
  unfold postflopStrategy amountContractOk
  dsimp only
  split_ifs <;> refine ⟨fun hz => ?_, fun hr => ?_⟩ <;>
    first
      | rfl
      | exact clampOk _ _ _ hmm
      | simp at hr
      | (rcases hz with h | h | h <;> simp at h)

theorem randomBot_cap (gs : GameState) (minBet maxBet : ℤ) (hmm : minBet ≤ maxBet) :
    minBet ≤ randomBotRaiseCap gs minBet maxBet ∧
      randomBotRaiseCap gs minBet maxBet ≤ maxBet := by
  unfold randomBotRaiseCap
  dsimp only
  split_ifs with hc
  · exact ⟨le_rfl, hmm⟩
  · exact ⟨not_lt.mp hc, min_le_right _ _⟩

/-- C2: under the precondition `min_bet ≤ max_bet`, the returned amount is 0
whenever the returned action is fold, check or call, and lies within
`[min_bet, max_bet]` whenever the returned action is raise, for every game
state, hole cards, legal-action list and random outcome, for both
`HybridBot.get_action` and `RandomBot.get_action`. -/
theorem C2_amount_bounds (minBet maxBet : ℤ) (hmm : minBet ≤ maxBet) :
    (∀ (bot : HybridBotState) (handRank : List Card → ℕ) (gs : GameState)
        (holeCards : List Card) (legal : List PlayerAction) (rand : RandDraws),
      amountContractOk minBet maxBet
        (getAction bot handRank gs holeCards legal minBet maxBet rand).2) ∧
      ∀ (gs : GameState) (holeCards : List Card) (legal : List PlayerAction)
        (rand : RandDraws),
      amountContractOk minBet maxBet
        (randomBotGetAction gs holeCards legal minBet maxBet rand) := by
  constructor
  · intro bot handRank gs holeCards legal rand
    unfold getAction
    split
    · exact preflop_amount bot gs holeCards legal minBet maxBet rand hmm
    · exact postflop_amount bot handRank gs holeCards legal minBet maxBet rand hmm
  · intro gs holeCards legal rand
    unfold randomBotGetAction amountContractOk
    dsimp only
    split_ifs with hact
    · refine ⟨fun hz => ?_, fun _ => ?_⟩
      · rcases hz with h | h | h <;> (rw [hact] at h; exact nomatch h)
      · obtain ⟨hc1, hc2⟩ := randomBot_cap gs minBet maxBet hmm
        obtain ⟨hr1, hr2⟩ := randintOk minBet (randomBotRaiseCap gs minBet maxBet) rand.k hc1
        exact ⟨hr1, hr2.trans hc2⟩
    · exact ⟨fun _ => rfl, fun hr => absurd hr hact⟩

theorem C2_amount_bounds_witness :
    (20 : ℤ) ≤ 500 ∧
      amountContractOk 20 500
        (getAction (initBot "h") (fun _ => 0) gsPre [⟨.ace, .spades⟩, ⟨.ace, .diamonds⟩]
          [PlayerAction.fold, PlayerAction.call, PlayerAction.raise] 20 500 randLow).2 :=
  ⟨by decide,
    (C2_amount_bounds 20 500 (by decide)).1 (initBot "h") (fun _ => 0) gsPre
      [⟨.ace, .spades⟩, ⟨.ace, .diamonds⟩]
      [PlayerAction.fold, PlayerAction.call, PlayerAction.raise] randLow⟩

theorem knobs_step (bot : HybridBotState) (e : BotEvent) (h : knobsInBounds bot) :
    knobsInBounds (applyEvent bot e) := by
  obtain ⟨h1, h2, h3, h4⟩ := h
  have hq1 : (0 : ℚ) ≤ mkRat 2 100 := by decide
  have hq2 : (0 : ℚ) ≤ mkRat 1 100 := by decide
  cases e with
  | handDone w =>
    cases w with
    | some ws =>
      by_cases hw : bot.name ∈ ws
      · unfold applyEvent handComplete
        dsimp only
        rw [if_pos hw]
        refine ⟨le_min (by decide) (by linarith), min_le_left _ _,
          le_min (by decide) (by linarith), min_le_left _ _⟩
      · unfold applyEvent handComplete
        dsimp only
        rw [if_neg hw]
        refine ⟨le_max_left _ _, max_le (by decide) (by linarith),
          le_max_left _ _, max_le (by decide) (by linarith)⟩
    | none =>
      unfold applyEvent handComplete
      dsimp only
      refine ⟨le_max_left _ _, max_le (by decide) (by linarith),
        le_max_left _ _, max_le (by decide) (by linarith)⟩
  | tourneyStart ps =>
    unfold applyEvent tournamentStart
    dsimp only
    split_ifs
    · exact ⟨show (mkRat 3 10 : ℚ) ≤ mkRat 6 10 by decide,
        show (mkRat 6 10 : ℚ) ≤ mkRat 8 10 by decide,
        show (mkRat 6 10 : ℚ) ≤ mkRat 85 100 by decide,
        show (mkRat 85 100 : ℚ) ≤ mkRat 9 10 by decide⟩
    · exact ⟨show (mkRat 3 10 : ℚ) ≤ mkRat 45 100 by decide,
        show (mkRat 45 100 : ℚ) ≤ mkRat 8 10 by decide,
        show (mkRat 6 10 : ℚ) ≤ mkRat 7 10 by decide,
        show (mkRat 7 10 : ℚ) ≤ mkRat 9 10 by decide⟩
    · exact ⟨h1, h2, h3, h4⟩

theorem knobs_events (evs : List BotEvent) :
    ∀ bot : HybridBotState, knobsInBounds bot → knobsInBounds (applyEvents bot evs) := by
  induction evs with
  | nil => exact fun bot h => h
  | cons e t ih => exact fun bot h => ih (applyEvent bot e) (knobs_step bot e h)

/-- C3: starting from the constructor defaults, after any finite sequence of
`hand_complete` and `tournament_start` calls the knobs stay in
`[0.3, 0.8]` and `[0.6, 0.9]`; moreover, from any in-bounds state a single
`hand_complete` moves `raise_frequency` by at most 0.02 and
`play_frequency` by at most 0.01, upward on a win (the bot's name is among
the result's winners) and downward otherwise. -/
theorem C3_adaptive_knobs :
    (∀ (name : String) (evs : List BotEvent),
      knobsInBounds (applyEvents (initBot name) evs)) ∧
      ∀ (bot : HybridBotState) (w : Option (List String)), knobsInBounds bot →
        (isWin bot w →
          bot.raise_frequency ≤ (handComplete bot w).raise_frequency ∧
            (handComplete bot w).raise_frequency ≤ bot.raise_frequency + mkRat 2 100 ∧
            bot.play_frequency ≤ (handComplete bot w).play_frequency ∧
            (handComplete bot w).play_frequency ≤ bot.play_frequency + mkRat 1 100) ∧
        (¬ isWin bot w →
          (handComplete bot w).raise_frequency ≤ bot.raise_frequency ∧
            bot.raise_frequency - mkRat 1 100 ≤ (handComplete bot w).raise_frequency ∧
            (handComplete bot w).play_frequency ≤ bot.play_frequency ∧
            bot.play_frequency - mkRat 1 100 ≤ (handComplete bot w).play_frequency) := by
  constructor
  · intro name evs
    refine knobs_events evs (initBot name) ?_
    unfold knobsInBounds initBot
    dsimp only
    exact ⟨by decide, by decide, by decide, by decide⟩
  · intro bot w h
    obtain ⟨h1, h2, h3, h4⟩ := h
    have hq1 : (0 : ℚ) ≤ mkRat 2 100 := by decide
    have hq2 : (0 : ℚ) ≤ mkRat 1 100 := by decide
    constructor
    · intro hwin
      cases w with
      | none => exact absurd hwin id
      | some ws =>
        have hw : bot.name ∈ ws := hwin
        unfold handComplete
        dsimp only
        rw [if_pos hw]
        exact ⟨le_min h2 (by linarith), min_le_right _ _,
          le_min h4 (by linarith), min_le_right _ _⟩
    · intro hloss
      cases w with
      | none =>
        unfold handComplete
        dsimp only
        exact ⟨max_le h1 (by linarith), le_max_right _ _,
          max_le h3 (by linarith), le_max_right _ _⟩
      | some ws =>
        have hw : bot.name ∉ ws := hloss
        unfold handComplete
        dsimp only
        rw [if_neg hw]
        exact ⟨max_le h1 (by linarith), le_max_right _ _,
          max_le h3 (by linarith), le_max_right _ _⟩

theorem C3_adaptive_knobs_witness :
    knobsInBounds (applyEvents (initBot "w")
        [BotEvent.handDone (some ["w"]), BotEvent.tourneyStart ["w", "v"]]) ∧
      knobsInBounds (initBot "w") ∧ isWin (initBot "w") (some ["w"]) ∧
      (initBot "w").raise_frequency ≤
        (handComplete (initBot "w") (some ["w"])).raise_frequency :=
  ⟨C3_adaptive_knobs.1 "w" [BotEvent.handDone (some ["w"]), BotEvent.tourneyStart ["w", "v"]],
    ⟨by decide, by decide, by decide, by decide⟩,
    by unfold isWin; decide,
    (((C3_adaptive_knobs.2 (initBot "w") (some ["w"])
        ⟨by decide, by decide, by decide, by decide⟩).1) (by unfold isWin; decide)).1⟩

theorem preflop_legal (bot : HybridBotState) (gs : GameState) (holeCards : List Card)
    (legal : List PlayerAction) (minBet maxBet : ℤ) (rand : RandDraws)
    (hf : PlayerAction.fold ∈ legal)
    (hcc : PlayerAction.check ∈ legal ∨ PlayerAction.call ∈ legal) :
    (preflopStrategy bot gs holeCards legal minBet maxBet rand).1 ∈ legal := by
  unfold preflopStrategy
  rcases holeCards with _ | ⟨c1, _ | ⟨c2, _ | ⟨c3, t⟩⟩⟩ <;> dsimp only
  · exact hf
  · exact hf
  · split_ifs <;> dsimp only <;> tauto
  · exact hf

theorem postflop_legal (bot : HybridBotState) (handRank : List Card → ℕ)
    (gs : GameState) (holeCards : List Card) (legal : List PlayerAction)
    (minBet maxBet : ℤ) (rand : RandDraws) (hf : PlayerAction.fold ∈ legal)
    (hcc : PlayerAction.check ∈ legal ∨ PlayerAction.call ∈ legal) :
    (postflopStrategy bot handRank gs holeCards legal minBet maxBet rand).1 ∈ legal := by
  unfold postflopStrategy
  dsimp only
  split_ifs <;> dsimp only <;> tauto

theorem randomBot_legal (gs : GameState) (holeCards : List Card)
    (legal : List PlayerAction) (minBet maxBet : ℤ) (rand : RandDraws)
    (hne : legal ≠ []) :
    (randomBotGetAction gs holeCards legal minBet maxBet rand).1 ∈ legal := by
  have hlen : 0 < legal.length := List.length_pos.mpr hne
  have hidx : rand.choiceIdx % legal.length < legal.length := Nat.mod_lt _ hlen
  have hmem : legal.getD (rand.choiceIdx % legal.length) PlayerAction.fold ∈ legal := by
    rw [List.getD_eq_getElem?_getD, List.getElem?_eq_getElem hidx]
    exact List.getElem_mem hidx
  unfold randomBotGetAction
  dsimp only
  split_ifs with h
  · exact hmem
  · exact hmem

/-- C1 (amended): `RandomBot.get_action` always returns a member of any
non-empty legal-action list.  `HybridBot.get_action` returns a member of
`legal_actions` whenever fold is legal and at least one of check or call is
legal (which covers every legal set the engine can supply to a player who
still has chips); each branch attempts actions in the priority order raise,
call, check, fold, but the preflop playable branch and the postflop
strong-hand branch end at check without falling through to fold, and
several branches return fold without testing its legality, so for other
legal sets — including singletons such as `{fold}` — the returned action
can be illegal (see the counterexample). -/
theorem C1_amended :
    (∀ (bot : HybridBotState) (handRank : List Card → ℕ) (gs : GameState)
        (holeCards : List Card) (legal : List PlayerAction) (minBet maxBet : ℤ)
        (rand : RandDraws),
      PlayerAction.fold ∈ legal →
      (PlayerAction.check ∈ legal ∨ PlayerAction.call ∈ legal) →
      (getAction bot handRank gs holeCards legal minBet maxBet rand).2.1 ∈ legal) ∧
      ∀ (gs : GameState) (holeCards : List Card) (legal : List PlayerAction)
        (minBet maxBet : ℤ) (rand : RandDraws), legal ≠ [] →
        (randomBotGetAction gs holeCards legal minBet maxBet rand).1 ∈ legal := by
  constructor
  · intro bot handRank gs holeCards legal minBet maxBet rand hf hcc
    unfold getAction
    split
    · exact preflop_legal bot gs holeCards legal minBet maxBet rand hf hcc
    · exact postflop_legal bot handRank gs holeCards legal minBet maxBet rand hf hcc
  · intro gs holeCards legal minBet maxBet rand hne
    exact randomBot_legal gs holeCards legal minBet maxBet rand hne

/-- C1 counterexample: with the singleton legal set `{fold}`, a premium
preflop hand and the random outcome 0.5/0.5, `HybridBot` returns check,
which is not a member of the supplied legal actions — the playable branch
ends at check instead of falling through to fold. -/
theorem C1_counterexample :
    (getAction (initBot "hybrid") (fun _ => 0) gsPre
        [⟨.ace, .spades⟩, ⟨.ace, .diamonds⟩] [PlayerAction.fold] 20 500 randC).2.1 =
      PlayerAction.check ∧
      PlayerAction.check ∉ [PlayerAction.fold] := by decide

theorem C1_amended_witness :
    (PlayerAction.fold ∈ [PlayerAction.fold, PlayerAction.check] ∧
      (PlayerAction.check ∈ [PlayerAction.fold, PlayerAction.check] ∨
        PlayerAction.call ∈ [PlayerAction.fold, PlayerAction.check]) ∧
      (getAction (initBot "h") (fun _ => 0) gsPre [⟨.ace, .spades⟩, ⟨.ace, .diamonds⟩]
          [PlayerAction.fold, PlayerAction.check] 20 500 randC).2.1 ∈
        [PlayerAction.fold, PlayerAction.check]) ∧
      ([PlayerAction.call] ≠ ([] : List PlayerAction) ∧
        (randomBotGetAction gsFlop [] [PlayerAction.call] 20 500 randC).1 ∈
          [PlayerAction.call]) :=
  ⟨⟨by decide, Or.inl (by decide),
      C1_amended.1 (initBot "h") (fun _ => 0) gsPre
        [⟨.ace, .spades⟩, ⟨.ace, .diamonds⟩] [PlayerAction.fold, PlayerAction.check]
        20 500 randC (by decide) (Or.inl (by decide))⟩,
    by decide,
    C1_amended.2 gsFlop [] [PlayerAction.call] 20 500 randC (by decide)⟩

theorem postflop_no_bluff (bot : HybridBotState) (handRank : List Card → ℕ)
    (gs : GameState) (holeCards : List Card) (legal : List PlayerAction)
    (minBet maxBet : ℤ) (rand : RandDraws)
    (hrk : handRank (holeCards ++ gs.community_cards) < HAND_RANKINGS_pair)
    (hsd : hasStrongDraw (holeCards ++ gs.community_cards) = false) :
    postflopStrategy bot handRank gs holeCards legal minBet maxBet rand =
      (if PlayerAction.check ∈ legal then (PlayerAction.check, 0)
        else (PlayerAction.fold, 0)) := by
  have h1 : ¬ (HAND_RANKINGS_pair ≤ handRank (holeCards ++ gs.community_cards)) :=
    not_le.mpr hrk
  have h2 : ¬ (HAND_RANKINGS_two_pair ≤ handRank (holeCards ++ gs.community_cards)) := by
    unfold HAND_RANKINGS_pair at hrk
    unfold HAND_RANKINGS_two_pair
    omega
  unfold postflopStrategy
  dsimp only
  rw [if_neg h2, if_neg (fun hc => h1 hc.1), if_neg (fun hc => h1 hc.1),
    if_neg (fun hc => by rw [hsd] at hc; exact nomatch hc.1),
    if_neg (fun hc => by rw [hsd] at hc; exact nomatch hc.1)]

/-- C4 (amended): `HybridBot._postflop_strategy` has no pure-bluff branch.
When the made-hand rank is below pair and no strong draw is present, the
bot checks if check is legal and folds otherwise, for every current bet
(including 0), every legal set (including ones containing raise), and
every outcome of the random draws — it never raises in that situation. -/
theorem C4_amended (bot : HybridBotState) (handRank : List Card → ℕ)
    (gs : GameState) (holeCards : List Card) (legal : List PlayerAction)
    (minBet maxBet : ℤ) (rand : RandDraws)
    (hround : gs.round_name ≠ "preflop")
    (hrk : handRank (holeCards ++ gs.community_cards) < HAND_RANKINGS_pair)
    (hsd : hasStrongDraw (holeCards ++ gs.community_cards) = false) :
    (getAction bot handRank gs holeCards legal minBet maxBet rand).2 =
      (if PlayerAction.check ∈ legal then (PlayerAction.check, 0)
        else (PlayerAction.fold, 0)) := by
  unfold getAction
  rw [if_neg hround]
  exact postflop_no_bluff bot handRank gs holeCards legal minBet maxBet rand hrk hsd

/-- C4 counterexample: on the flop with a high-card hand, no strong draw,
`current_bet = 0` and raise legal, there is no outcome of the random draws
on which the bot raises — the claimed ~0.25-probability half-pot bluff
branch does not exist in the code. -/
theorem C4_counterexample :
    ¬ ∃ rand : RandDraws,
      (getAction (initBot "hybrid") (fun _ => 0) gsFlop
          [⟨.two, .clubs⟩, ⟨.seven, .diamonds⟩]
          [PlayerAction.fold, PlayerAction.check, PlayerAction.raise] 20 500 rand).2.1 =
        PlayerAction.raise := by
  rintro ⟨rand, h⟩
  unfold getAction at h
  rw [if_neg (by decide : ¬ (gsFlop.round_name = "preflop"))] at h
  dsimp only at h
  rw [postflop_no_bluff (initBot "hybrid") (fun _ => 0) gsFlop
    [⟨.two, .clubs⟩, ⟨.seven, .diamonds⟩]
    [PlayerAction.fold, PlayerAction.check, PlayerAction.raise] 20 500 rand
    (by decide) (by decide)] at h
  rw [if_pos (by decide : PlayerAction.check ∈
    [PlayerAction.fold, PlayerAction.check, PlayerAction.raise])] at h
  exact nomatch h

theorem C4_amended_witness :
    gsFlop.round_name ≠ "preflop" ∧
      (fun _ : List Card => 0)
          ([⟨.two, .clubs⟩, ⟨.seven, .diamonds⟩] ++ gsFlop.community_cards) <
        HAND_RANKINGS_pair ∧
      hasStrongDraw ([⟨.two, .clubs⟩, ⟨.seven, .diamonds⟩] ++ gsFlop.community_cards) =
        false ∧
      (getAction (initBot "h") (fun _ => 0) gsFlop [⟨.two, .clubs⟩, ⟨.seven, .diamonds⟩]
          [PlayerAction.fold, PlayerAction.check] 20 500 randC).2 =
        (if PlayerAction.check ∈ [PlayerAction.fold, PlayerAction.check] then
          (PlayerAction.check, 0) else (PlayerAction.fold, 0)) :=
  ⟨by decide, by decide, by decide,
    C4_amended (initBot "h") (fun _ => 0) gsFlop [⟨.two, .clubs⟩, ⟨.seven, .diamonds⟩]
      [PlayerAction.fold, PlayerAction.check] 20 500 randC (by decide) (by decide)
      (by decide)⟩

theorem sortedDedupRanks_nodup (allCards : List Card) :
    (sortedDedupRanks allCards).Nodup := by
  unfold sortedDedupRanks
  exact ((List.perm_insertionSort _ _).nodup_iff).mpr (List.nodup_dedup _)

theorem length_ge_four_of_wheel {l : List ℤ} (hnd : l.Nodup)
    (h : wheelCheck l = true) : 4 ≤ l.length := by
  unfold wheelCheck at h
  rw [Bool.or_eq_true, List.all_eq_true, List.all_eq_true] at h
  simp only [decide_eq_true_eq] at h
  have hlen : l.toFinset.card = l.length := List.toFinset_card_of_nodup hnd
  rcases h with h | h
  · have hsub : ({14, 2, 3, 4} : Finset ℤ) ⊆ l.toFinset := by
      intro x hx
      simp only [Finset.mem_insert, Finset.mem_singleton] at hx
      rcases hx with rfl | rfl | rfl | rfl <;>
        exact List.mem_toFinset.mpr (h _ (by decide))
    have hcard := Finset.card_le_card hsub
    have hc4 : ({14, 2, 3, 4} : Finset ℤ).card = 4 := by decide
    omega
  · have hsub : ({2, 3, 4, 5} : Finset ℤ) ⊆ l.toFinset := by
      intro x hx
      simp only [Finset.mem_insert, Finset.mem_singleton] at hx
      rcases hx with rfl | rfl | rfl | rfl <;>
        exact List.mem_toFinset.mpr (h _ (by decide))
    have hcard := Finset.card_le_card hsub
    have hc4 : ({2, 3, 4, 5} : Finset ℤ).card = 4 := by decide
    omega

theorem straightWindow_iff (ranks : List ℤ) :
    straightWindow ranks = true ↔
      ∃ i, i + 3 < ranks.length ∧ ranks.getD (i + 3) 0 - ranks.getD i 0 = 3 := by
  unfold straightWindow
  rw [List.any_eq_true]
  constructor
  · rintro ⟨i, hi, hp⟩
    rw [List.mem_range] at hi
    exact ⟨i, by omega, of_decide_eq_true hp⟩
  · rintro ⟨i, hi, hp⟩
    exact ⟨i, List.mem_range.mpr (by omega), decide_eq_true hp⟩

theorem wheelCheck_iff (ranks : List ℤ) :
    wheelCheck ranks = true ↔
      ((∀ r ∈ ([14, 2, 3, 4] : List ℤ), r ∈ ranks) ∨
        (∀ r ∈ ([2, 3, 4, 5] : List ℤ), r ∈ ranks)) := by
  unfold wheelCheck
  rw [Bool.or_eq_true, List.all_eq_true, List.all_eq_true]
  simp only [decide_eq_true_eq]

/-- C5: for every list of 2 to 7 cards,
`GameInfoAPI.has_open_ended_straight_draw` returns true exactly when the
sorted list of distinct rank values contains a 4-element window whose
maximum minus minimum equals 3, or the rank set is a superset of
`{14,2,3,4}` or of `{2,3,4,5}`; and the straight part of
`HybridBot._has_strong_draw` agrees with it, i.e. `_has_strong_draw` is
the flush-draw test or-ed with `has_open_ended_straight_draw`. -/
theorem C5_straight_draw_iff (allCards : List Card)
    (_hlo : 2 ≤ allCards.length) (_hhi : allCards.length ≤ 7) :
    (has_open_ended_straight_draw allCards = true ↔ claimStraightDraw allCards) ∧
      hasStrongDraw allCards =
        (hasFlushDraw allCards || has_open_ended_straight_draw allCards) := by
  have hnd := sortedDedupRanks_nodup allCards
  constructor
  · unfold has_open_ended_straight_draw claimStraightDraw
    dsimp only
    by_cases hlen : (sortedDedupRanks allCards).length < 4
    · rw [if_pos hlen]
      constructor
      · intro hfalse
        exact nomatch hfalse
      · rintro (⟨i, hi, _⟩ | hw | hw)
        · omega
        · have hwc : wheelCheck (sortedDedupRanks allCards) = true := by
            unfold wheelCheck
            rw [Bool.or_eq_true, List.all_eq_true, List.all_eq_true]
            simp only [decide_eq_true_eq]
            exact Or.inl hw
          exact absurd (length_ge_four_of_wheel hnd hwc) (by omega)
        · have hwc : wheelCheck (sortedDedupRanks allCards) = true := by
            unfold wheelCheck
            rw [Bool.or_eq_true, List.all_eq_true, List.all_eq_true]
            simp only [decide_eq_true_eq]
            exact Or.inr hw
          exact absurd (length_ge_four_of_wheel hnd hwc) (by omega)
    · rw [if_neg hlen]
      by_cases hw : straightWindow (sortedDedupRanks allCards) = true
      · rw [if_pos hw]
        exact ⟨fun _ => Or.inl ((straightWindow_iff _).mp hw), fun _ => rfl⟩
      · rw [if_neg hw, wheelCheck_iff]
        constructor
        · exact fun hwl => Or.inr hwl
        · rintro (⟨i, hi, hp⟩ | hwl)
          · exact absurd ((straightWindow_iff _).mpr ⟨i, hi, hp⟩) hw
          · exact hwl
  · unfold hasStrongDraw has_open_ended_straight_draw
    dsimp only
    by_cases hfl : hasFlushDraw allCards = true
    · rw [if_pos hfl, hfl, Bool.true_or]
    · have hfl' : hasFlushDraw allCards = false := by
        revert hfl
        cases hasFlushDraw allCards <;> simp
      rw [if_neg hfl, hfl', Bool.false_or]
      by_cases hlen : (sortedDedupRanks allCards).length < 4
      · have hd : decide (4 ≤ (sortedDedupRanks allCards).length) = false :=
          decide_eq_false (by omega)
        rw [hd, Bool.false_and, if_pos hlen]
        cases hwl : wheelCheck (sortedDedupRanks allCards) with
        | false => rfl
        | true => exact absurd (length_ge_four_of_wheel hnd hwl) (by omega)
      · have hd : decide (4 ≤ (sortedDedupRanks allCards).length) = true :=
          decide_eq_true (by omega)
        rw [hd, Bool.true_and, if_neg hlen]

/-- A concrete 5-card board containing the ace-low wheel pattern. -/
def cards5 : List Card :=
  [⟨.ace, .spades⟩, ⟨.two, .hearts⟩, ⟨.three, .diamonds⟩, ⟨.four, .clubs⟩,
   ⟨.nine, .spades⟩]

theorem C5_straight_draw_iff_witness :
    2 ≤ cards5.length ∧ cards5.length ≤ 7 ∧
      ((has_open_ended_straight_draw cards5 = true ↔ claimStraightDraw cards5) ∧
        hasStrongDraw cards5 =
          (hasFlushDraw cards5 || has_open_ended_straight_draw cards5)) :=
  ⟨by decide, by decide, C5_straight_draw_iff cards5 (by decide) (by decide)⟩
